import Mathlib

/-!
Shallow embedding of the core pipeline of src/app.py (AutoNation eBrochure →
Carfax fetcher): URL normalization, URL validation, the retried primary fetch,
the per-record processing loop, and the batch aggregation (result table, merge
of the resolved URL back onto the input table, and the archive of downloaded
files).

Modelling conventions:
  - A pandas cell is a `Cell`: `na` (NaN/None), `str s` (a Python string), or
    `other r` (a non-string, non-null value whose Python str() rendering is r).
  - Network behaviour is an oracle: the eBrochure GET is a function from the
    attempt number to `Except String HttpResponse` (an exception or non-2xx
    raise_for_status is the error case), the Carfax GET is a single
    `Except String HttpResponse`, and BeautifulSoup's
    soup.find("a", class_="j-carfax-link") is a total function from the page
    text to the optional anchor (BeautifulSoup's html.parser is total on str
    input, so totality of the model matches the library).
  - Python str.strip() strips Unicode whitespace; the model strips the ASCII
    whitespace characters, which is what the claims exercise.
  - time.sleep durations are recorded as rationals (the Python floats 1.5*1,
    1.5*2 are exact in binary, so no rounding is lost for retries = 3).
  - Bytes (resp.content) are modelled as List Nat.
-/

/-- Cell: one pandas cell. `na` models NaN/None (pd.isna true); `str` a Python
string; `other` any other value, carrying its str() rendering. -/
inductive Cell
  | na
  | str (s : String)
  | other (repr : String)
deriving DecidableEq, Repr

/-- Row: one row of the uploaded table, with the two designated columns and
the remaining cells (carried through the merge unchanged). -/
structure Row where
  vin : Cell
  source : Cell
  rest : List Cell
deriving DecidableEq, Repr

/-- HttpResponse: the parts of a requests.Response the code reads. -/
structure HttpResponse where
  text : String
  contentType : Option String
  content : List Nat
deriving DecidableEq, Repr

/-- Anchor: a BeautifulSoup tag result; href is the optional href attribute. -/
structure Anchor where
  href : Option String
deriving DecidableEq, Repr

/-- RecEnv: the network/parse oracle for one record. `get` is the eBrochure
GET indexed by attempt number, `findAnchor` is soup.find on the page text,
`getDoc` is the single Carfax GET (including raise_for_status). -/
structure RecEnv where
  get : Nat → Except String HttpResponse
  findAnchor : String → Option Anchor
  getDoc : Except String HttpResponse

/-- RecordResult: one appended dict of the results list (the dicts appended in
the early branches carry no FILE_NAME key; that is modelled as none). -/
structure RecordResult where
  vin : String
  ebrochureUrl : String
  carfaxUrl : Option String
  status : String
  errorMessage : Option String
  fileName : Option String
deriving DecidableEq, Repr

/-- isPyWs: ASCII whitespace as stripped by str.strip(). -/
def isPyWs (c : Char) : Bool :=
  c == ' ' || c == '\t' || c == '\n' || c == '\r' || c == '\x0b' || c == '\x0c'

/-- isQuoteCh: the characters of the strip set in raw_value.strip("'\x22"). -/
def isQuoteCh (c : Char) : Bool :=
  c == '\'' || c == '"'

/-- stripEndsL: Python str.strip(set) on a character list — drop the set's
characters from both ends. -/
def stripEndsL (p : Char → Bool) (l : List Char) : List Char :=
  ((l.dropWhile p).reverse.dropWhile p).reverse

/-- stripWsL: str.strip() on a character list. -/
def stripWsL (l : List Char) : List Char :=
  stripEndsL isPyWs l

/-- stripQuotesL: str.strip("'\x22") on a character list. -/
def stripQuotesL (l : List Char) : List Char :=
  stripEndsL isQuoteCh l

/-- pyStrip: str.strip() on a String. -/
def pyStrip (s : String) : String :=
  String.mk (stripWsL s.data)

/-- pyStripQuotes: str.strip("'\x22") on a String. -/
def pyStripQuotes (s : String) : String :=
  String.mk (stripQuotesL s.data)

/-- lowerAscii: ASCII lower-casing of one character (str.lower restricted to
the ASCII range the code exercises). -/
def lowerAscii (c : Char) : Char :=
  if 'A' ≤ c ∧ c ≤ 'Z' then Char.ofNat (c.toNat + 32) else c

/-- lowerStr: str.lower(). -/
def lowerStr (s : String) : String :=
  String.mk (s.data.map lowerAscii)

/-- startsWithL: str.startswith on character lists (exact, case-sensitive). -/
def startsWithL : List Char → List Char → Bool
  | [], _ => true
  | _ :: _, [] => false
  | p :: ps, c :: cs => p == c && startsWithL ps cs

/-- startsWithStr: str.startswith on Strings. -/
def startsWithStr (p s : String) : Bool :=
  startsWithL p.data s.data

/-- dropLitCI: match a lower-cased literal case-insensitively at the head of a
character list, returning the rest on success (the IGNORECASE literal part of
the hyperlink regex). -/
def dropLitCI : List Char → List Char → Option (List Char)
  | [], cs => some cs
  | _ :: _, [] => none
  | p :: ps, c :: cs => if lowerAscii c = p then dropLitCI ps cs else none

/-- hyperLit: the lower-cased literal prefix of the hyperlink regex,
=HYPERLINK( up to the first quote. -/
def hyperLit : List Char :=
  ['=', 'h', 'y', 'p', 'e', 'r', 'l', 'i', 'n', 'k', '(']

/-- hyperlinkTail: after =HYPERLINK("group1" has been consumed, the rest of
the fullmatch — either the closing parenthesis alone, or an optional
,"label" followed by the closing parenthesis, and nothing after it. -/
def hyperlinkTail (g1 : List Char) (afterQ : List Char) : Option (List Char) :=
  if afterQ = [')'] then some g1
  else
    match afterQ with
    | ca :: cb :: rest3 =>
      if ca = ',' ∧ cb = '"' then
        if rest3.dropWhile (fun c => c ≠ '"') = ['"', ')'] then some g1 else none
      else none
    | _ => none

/-- hyperlinkExtractL: hyperlink_pattern.fullmatch on a character list,
returning group 1. The regex is
=HYPERLINK\("([^\x22]+)"(?:,"[^\x22]*")?\) with IGNORECASE, fullmatched; as
[^\x22] cannot cross a quote the match is deterministic: group 1 is the run
of non-quote characters after the first quote, which must be non-empty and
closed by a quote. -/
def hyperlinkExtractL (l : List Char) : Option (List Char) :=
  match dropLitCI hyperLit l with
  | none => none
  | some rest =>
    match rest with
    | [] => none
    | c0 :: rest1 =>
      if c0 = '"' then
        let g1 := rest1.takeWhile (fun c => c ≠ '"')
        if g1 = [] then none
        else
          match rest1.dropWhile (fun c => c ≠ '"') with
          | [] => none
          | c2 :: afterQ => if c2 = '"' then hyperlinkTail g1 afterQ else none
      else none

/-- hyperlinkExtract: hyperlink_pattern.fullmatch(s), group 1, on Strings. -/
def hyperlinkExtract (s : String) : Option String :=
  (hyperlinkExtractL s.data).map String.mk

/-- cellRaw: the coercion at the top of normalize_url — a str passes through,
NaN/None becomes the empty string, any other value becomes its str(). -/
def cellRaw (c : Cell) : String :=
  match c with
  | .str s => s
  | .na => ""
  | .other r => r

/-- normalizeStr: the body of normalize_url after the string coercion — strip
whitespace then the quote set, unwrap a full-string =HYPERLINK("url"[,"label"])
formula (group 1, re-stripped), and prepend https:// when the value starts
with www. . -/
def normalizeStr (raw : String) : String :=
  let c0 := pyStripQuotes (pyStrip raw)
  let c1 :=
    match hyperlinkExtract c0 with
    | some g => pyStrip g
    | none => c0
  if startsWithStr "www." c1 then "https://" ++ c1 else c1

/-- normalize_url from src/app.py lines 119-134: coerce the cell to a string,
then normalize it. -/
def normalize_url (c : Cell) : String :=
  normalizeStr (cellRaw c)

/-- stripOneLayerL: remove exactly one layer of enclosing quotes — when the
first and last character are the same quote character, drop both, once. This
follows C6's words "a single layer of enclosing single/double quotes"; the
code's str.strip removes every leading and trailing quote character
instead. -/
def stripOneLayerL (l : List Char) : List Char :=
  match l with
  | [] => []
  | c :: cs =>
    if (c = '\'' ∨ c = '"') ∧ cs ≠ [] ∧ cs.getLast? = some c then cs.dropLast
    else c :: cs

/-- specNormalizeC6: the normalizer exactly as claim C6 words it — null and
non-string input coerce to the empty string, surrounding whitespace and a
single layer of enclosing quotes are stripped, a full-string
=HYPERLINK("url"[,"label"]) match is replaced by the captured URL re-trimmed,
and https:// is prepended exactly when the result begins with www. . -/
def specNormalizeC6 (c : Cell) : String :=
  let raw := match c with | .str s => s | _ => ""
  let t1 := String.mk (stripOneLayerL (stripWsL raw.data))
  let t2 :=
    match hyperlinkExtract t1 with
    | some g => pyStrip g
    | none => t1
  if startsWithStr "www." t2 then "https://" ++ t2 else t2

/-- specNormalizeC6Amended: the normalizer as the amended claim words it —
null coerces to the empty string, any other non-string coerces to its string
rendering, surrounding whitespace and then every leading and trailing quote
character are stripped, a full-string =HYPERLINK("url"[,"label"]) match is
replaced by the captured URL re-trimmed of whitespace, and https:// is
prepended exactly when the result begins with www.; nothing else is
rewritten. -/
def specNormalizeC6Amended (c : Cell) : String :=
  let raw := match c with | .na => "" | .str s => s | .other r => r
  let t1 := pyStripQuotes (pyStrip raw)
  let t2 :=
    match hyperlinkExtract t1 with
    | some g => pyStrip g
    | none => t1
  if startsWithStr "www." t2 then "https://" ++ t2 else t2

/-- c0ControlOrSpace: WHATWG C0-control-or-space, lstripped by urlsplit. -/
def c0ControlOrSpace (c : Char) : Bool :=
  c.toNat ≤ 32

/-- schemeChar: urllib scheme_chars — ASCII letters, digits, +, -, . . -/
def schemeChar (c : Char) : Bool :=
  c.isAlpha || c.isDigit || c == '+' || c == '-' || c == '.'

/-- urlparseSN: the scheme/netloc part of urllib.parse.urlparse — lstrip
C0-control-or-space, delete tab/CR/LF, split a valid scheme at the first
colon (lower-cased), then read a netloc after // up to the first of /, ?, #;
a bracket-unbalanced netloc raises ValueError (modelled as none). -/
def urlparseSN (url : String) : Option (String × List Char) :=
  let l0 := url.data.dropWhile c0ControlOrSpace
  let l := l0.filter (fun c => !(c == '\t' || c == '\r' || c == '\n'))
  let pre := l.takeWhile (fun c => c != ':')
  let hasScheme :=
    decide (pre.length < l.length) && !pre.isEmpty &&
    (match pre with | c :: _ => c.isAlpha | [] => false) &&
    pre.all schemeChar
  let scheme := if hasScheme then String.mk (pre.map lowerAscii) else ""
  let rest := if hasScheme then l.drop (pre.length + 1) else l
  match rest with
  | '/' :: '/' :: r2 =>
    let netloc := r2.takeWhile (fun c => c != '/' && c != '?' && c != '#')
    if (netloc.contains '[' && !netloc.contains ']') ||
       (netloc.contains ']' && !netloc.contains '[') then
      none
    else some (scheme, netloc)
  | _ => some (scheme, [])

/-- is_valid_url from src/app.py lines 136-141: urlparse must not raise, the
scheme must be http or https, and the netloc must be non-empty (truthy). -/
def is_valid_url (u : String) : Bool :=
  match urlparseSN u with
  | none => false
  | some (sch, nl) => (sch == "http" || sch == "https") && !nl.isEmpty

/-- FetchResult: the outcome of fetch_ebrochure together with the observable
attempt count and the recorded sleep durations (seconds, exact rationals). -/
structure FetchResult where
  result : Except String HttpResponse
  attempts : Nat
  sleeps : List ℚ

/-- failMsg: the RuntimeError message raised on exhaustion,
f-string "Failed to fetch eBrochure after {retries} attempts: {last_exc}". -/
def failMsg (retries : Nat) (e : String) : String :=
  "Failed to fetch eBrochure after " ++ toString retries ++ " attempts: " ++ e

/-- fetchGo: the body of the retry loop of fetch_ebrochure, at the current
attempt number with `remaining` further attempts allowed; a failed attempt
with attempts remaining sleeps backoff * attempt and retries. -/
def fetchGo (get : Nat → Except String HttpResponse) (backoff : ℚ) (retries : Nat) :
    Nat → Nat → FetchResult
  | attempt, remaining =>
    match get attempt with
    | .ok r => { result := .ok r, attempts := attempt, sleeps := [] }
    | .error e =>
      match remaining with
      | 0 => { result := .error (failMsg retries e), attempts := attempt, sleeps := [] }
      | m + 1 =>
        let rest := fetchGo get backoff retries (attempt + 1) m
        { result := rest.result, attempts := rest.attempts,
          sleeps := (backoff * (attempt : ℚ)) :: rest.sleeps }

/-- fetch_ebrochure from src/app.py lines 99-117: up to `retries` attempts
numbered from 1; a successful GET returns at once; a failure sleeps
backoff * attempt when attempts remain, and after the final failure a
RuntimeError carrying the last exception is raised. With retries = 0 the loop
never runs and the message renders last_exc = None as "None". -/
def fetch_ebrochure (get : Nat → Except String HttpResponse) (retries : Nat)
    (backoff : ℚ) : FetchResult :=
  match retries with
  | 0 => { result := .error (failMsg 0 "None"), attempts := 0, sleeps := [] }
  | n + 1 => fetchGo get backoff (n + 1) 1 n

/-- anchorHref: the truthiness test
if not tag or not tag.get("href") — the record proceeds only when the anchor
exists and its href attribute is present and non-empty. -/
def anchorHref (a : Option Anchor) : Option String :=
  match a with
  | none => none
  | some t =>
    match t.href with
    | none => none
    | some h => if h = "" then none else some h

/-- containsSub: the Python substring test `pat in l`. -/
def containsSub (pat : List Char) : List Char → Bool
  | [] => pat.isEmpty
  | c :: rest => List.isPrefixOf pat (c :: rest) || containsSub pat rest

/-- extOf: the extension choice from the Content-Type header — lower-case the
header (missing header reads as ""), .pdf when it contains "pdf", else
.html. -/
def extOf (ct : Option String) : String :=
  if containsSub ['p', 'd', 'f'] (lowerStr (ct.getD "")).data then ".pdf" else ".html"

/-- sanitizeId: the safe_vin comprehension — every character that is not
alphanumeric, -, or _ is replaced with _. -/
def sanitizeId (s : String) : String :=
  String.mk (s.data.map (fun ch => if ch.isAlphanum || ch == '-' || ch == '_' then ch else '_'))

/-- recordVin: vin = str(row[vin_col]) if not pd.isna(row[vin_col]) else
f"row_{idx}". -/
def recordVin (idx : Nat) (c : Cell) : String :=
  match c with
  | .na => "row_" ++ toString idx
  | .str s => s
  | .other r => r

/-- processRecord: the body of the per-record loop, src/app.py lines 143-244.
Returns the appended result dict, the optional carfax_files entry
(vin, (filename, bytes)), and the number of network requests issued for the
record. Every branch of the source appends exactly one result dict; the
except-arms of the source are the error cases of the oracle. -/
def processRecord (env : RecEnv) (flag : Bool) (idx : Nat) (row : Row) :
    RecordResult × Option (String × String × List Nat) × Nat :=
  let vin := recordVin idx row.vin
  let url := normalize_url row.source
  if is_valid_url url then
    let fr := fetch_ebrochure env.get 3 (3 / 2)
    match fr.result with
    | .error msg =>
      ({ vin := vin, ebrochureUrl := url, carfaxUrl := none, status := "ERROR",
         errorMessage := some msg, fileName := none }, none, fr.attempts)
    | .ok resp =>
      match anchorHref (env.findAnchor resp.text) with
      | none =>
        ({ vin := vin, ebrochureUrl := url, carfaxUrl := none, status := "NO_CARFAX_LINK",
           errorMessage := some "No j-carfax-link anchor found", fileName := none },
         none, fr.attempts)
      | some href =>
        let carfax := pyStrip href
        if flag then
          match env.getDoc with
          | .ok r2 =>
            let filename := sanitizeId vin ++ extOf r2.contentType
            ({ vin := vin, ebrochureUrl := url, carfaxUrl := some carfax,
               status := "OK_DOWNLOADED", errorMessage := none,
               fileName := some filename },
             some (vin, filename, r2.content), fr.attempts + 1)
          | .error e2 =>
            ({ vin := vin, ebrochureUrl := url, carfaxUrl := some carfax,
               status := "URL_ONLY",
               errorMessage := some ("Carfax download error: " ++ e2),
               fileName := none }, none, fr.attempts + 1)
        else
          ({ vin := vin, ebrochureUrl := url, carfaxUrl := some carfax,
             status := "OK_URL_ONLY", errorMessage := none, fileName := none },
           none, fr.attempts)
  else
    ({ vin := vin, ebrochureUrl := url, carfaxUrl := none, status := "ERROR",
       errorMessage := some "Invalid eBrochure URL", fileName := none }, none, 0)

/-- dictInsert: Python dict assignment carfax_files[vin] = value — replaces in
place when the key exists (keeping insertion order), appends otherwise. -/
def dictInsert (k : String) (v : String × List Nat) :
    List (String × String × List Nat) → List (String × String × List Nat)
  | [] => [(k, v)]
  | (k1, v1) :: rest => if k1 = k then (k, v) :: rest else (k1, v1) :: dictInsert k v rest

/-- filesStep: fold one record's optional carfax_files entry into the dict. -/
def filesStep (fe : Option (String × String × List Nat))
    (files : List (String × String × List Nat)) : List (String × String × List Nat) :=
  match fe with
  | some (v, fc) => dictInsert v fc files
  | none => files

/-- runLoop: for idx, row in df.iterrows() — one processRecord per row in
order, threading the carfax_files dict left to right. -/
def runLoop (envs : Nat → RecEnv) (flag : Bool) :
    Nat → List Row → List (String × String × List Nat) →
    List RecordResult × List (String × String × List Nat)
  | _, [], files => ([], files)
  | i, row :: rows, files =>
    let step := processRecord (envs i) flag i row
    let restOut := runLoop envs flag (i + 1) rows (filesStep step.2.1 files)
    (step.1 :: restOut.1, restOut.2)

/-- dropDupFirst: results_df.drop_duplicates(subset=["VIN"]) — keep the first
row per VIN, preserving order (dropna(subset=["VIN"]) is a no-op because every
VIN value is a Python string). -/
def dropDupFirst (seen : List String) :
    List (String × Option String) → List (String × Option String)
  | [] => []
  | (k, v) :: rest =>
    if k ∈ seen then dropDupFirst seen rest
    else (k, v) :: dropDupFirst (k :: seen) rest

/-- carfaxLookupList: the VIN → CARFAX_URL lookup dict built from the results
table (first result kept per VIN). -/
def carfaxLookupList (rs : List RecordResult) : List (String × Option String) :=
  dropDupFirst [] (rs.map (fun rr => (rr.vin, rr.carfaxUrl)))

/-- assocFind: dict lookup, none when the key is missing (Series.map leaves
NaN for a missing key). -/
def assocFind (l : List (String × Option String)) (k : String) : Option (Option String) :=
  (l.find? (fun p => p.1 == k)).map Prod.snd

/-- mergeKey: merged[vin_col].astype(str) — the join key of an original row;
pandas astype(str) renders NaN as the string "nan". -/
def mergeKey (c : Cell) : String :=
  match c with
  | .na => "nan"
  | .str s => s
  | .other r => r

/-- mergedTable: src/app.py lines 254-265 — every original row paired with the
looked-up CARFAX_URL cell (none both for a missing key and for a None
value). -/
def mergedTable (rs : List RecordResult) (table : List Row) : List (Row × Option String) :=
  table.map (fun row =>
    (row,
     match assocFind (carfaxLookupList rs) (mergeKey row.vin) with
     | some v => v
     | none => none))

/-- BatchOutput: the observable artifacts of one run — the ordered results
list, the carfax_files dict, the enriched table, the ZIP entry list (none when
no ZIP download button is offered), and whether the no-downloads warning is
shown. -/
structure BatchOutput where
  results : List RecordResult
  files : List (String × String × List Nat)
  merged : List (Row × Option String)
  zipEntries : Option (List (String × List Nat))
  warning : Bool

/-- runBatch: the whole run for a fixed table and per-row oracle: the record
loop, the merge, and the ZIP/warning branch
(if download_carfax_files and carfax_files: zip ... elif
download_carfax_files: warning). -/
def runBatch (envs : Nat → RecEnv) (flag : Bool) (table : List Row) : BatchOutput :=
  let out := runLoop envs flag 0 table []
  { results := out.1
    files := out.2
    merged := mergedTable out.1 table
    zipEntries :=
      if flag && !out.2.isEmpty then some (out.2.map (fun p => (p.2.1, p.2.2))) else none
    warning := flag && out.2.isEmpty }

/-- mapIdxFrom: index-aware map, used to state that the results list has
exactly one entry per input row, in input order. -/
def mapIdxFrom (f : Nat → Row → RecordResult) : Nat → List Row → List RecordResult
  | _, [] => []
  | i, r :: rs => f i r :: mapIdxFrom f (i + 1) rs

/-- specStatus: the status taxonomy of the spec (section 4.4) read off a code
result row — the code reports INVALID_URL and RESOLVER_ERROR both as STATUS
"ERROR", distinguished by the message; NO_CARFAX_LINK is the spec's
NO_TARGET_LINK; OK_DOWNLOADED is DOWNLOADED; the failed-download branch
labels the row "URL_ONLY" (the spec's DOWNLOAD_FAILED) while the
download-disabled branch labels it "OK_URL_ONLY" (the spec's URL_ONLY). -/
def specStatus (rr : RecordResult) : String :=
  if rr.status = "ERROR" then
    if rr.errorMessage = some "Invalid eBrochure URL" then "INVALID_URL" else "RESOLVER_ERROR"
  else if rr.status = "NO_CARFAX_LINK" then "NO_TARGET_LINK"
  else if rr.status = "OK_DOWNLOADED" then "DOWNLOADED"
  else if rr.status = "URL_ONLY" then "DOWNLOAD_FAILED"
  else if rr.status = "OK_URL_ONLY" then "URL_ONLY"
  else rr.status

/-- firstResultUrl: the resolved URL of the first result carrying the given
identifier, none when there is none. -/
def firstResultUrl (rs : List RecordResult) (k : String) : Option String :=
  match rs.find? (fun rr => rr.vin == k) with
  | some rr => rr.carfaxUrl
  | none => none

/-- respPage: a concrete successful eBrochure response, for witnesses. -/
def respPage : HttpResponse :=
  { text := "page", contentType := none, content := [] }

/-- respPdf: a concrete successful Carfax download response, for witnesses. -/
def respPdf : HttpResponse :=
  { text := "", contentType := some "application/pdf", content := [1, 2] }

/-- envOk: an oracle where everything succeeds and the page carries a
j-carfax-link anchor, for witnesses. -/
def envOk : RecEnv :=
  { get := fun _ => .ok respPage
    findAnchor := fun _ => some { href := some " http://cf " }
    getDoc := .ok respPdf }

/-- envDocFail: an oracle where resolution succeeds but the single Carfax
download raises, for witnesses. -/
def envDocFail : RecEnv :=
  { get := fun _ => .ok respPage
    findAnchor := fun _ => some { href := some " http://cf " }
    getDoc := .error "boom" }

/-- rowV1: a concrete row with a valid source URL, for witnesses. -/
def rowV1 : Row :=
  { vin := Cell.str "V1", source := Cell.str "https://a.test/x", rest := [] }

/-- rowNa: a concrete row whose identifier cell is NaN, for witnesses. -/
def rowNa : Row :=
  { vin := Cell.na, source := Cell.str "https://a.test/x", rest := [] }

/-- rowBad: a concrete row whose source cell fails validation, for
witnesses. -/
def rowBad : Row :=
  { vin := Cell.str "V2", source := Cell.str "bad", rest := [] }

/-- C3: for every primary resolution fetch at most 3 attempts are made; each
failed attempt with attempts remaining sleeps backoff * attemptNumber before
the retry; a successful attempt returns immediately (failing twice then
succeeding yields success with exactly 3 attempts); after the final failed
attempt an error carrying the last underlying error is surfaced. The code
calls fetch_ebrochure with its defaults retries = 3, backoff = 1.5; the
theorem is stated for every backoff b, and the sleep schedule is always
b * 1, b * 2, ..., one per completed failed non-final attempt. -/
theorem c3_retry_policy (get : Nat → Except String HttpResponse) (b : ℚ) :
    (1 ≤ (fetch_ebrochure get 3 b).attempts ∧ (fetch_ebrochure get 3 b).attempts ≤ 3)
    ∧ (fetch_ebrochure get 3 b).sleeps =
        (List.range ((fetch_ebrochure get 3 b).attempts - 1)).map
          (fun i => b * ((i : ℚ) + 1))
    ∧ (∀ r, get 1 = .ok r →
        fetch_ebrochure get 3 b = { result := .ok r, attempts := 1, sleeps := [] })
    ∧ (∀ e1 r, get 1 = .error e1 → get 2 = .ok r →
        fetch_ebrochure get 3 b = { result := .ok r, attempts := 2, sleeps := [b * 1] })
    ∧ (∀ e1 e2 r, get 1 = .error e1 → get 2 = .error e2 → get 3 = .ok r →
        fetch_ebrochure get 3 b =
          { result := .ok r, attempts := 3, sleeps := [b * 1, b * 2] })
    ∧ (∀ e1 e2 e3, get 1 = .error e1 → get 2 = .error e2 → get 3 = .error e3 →
        fetch_ebrochure get 3 b =
          { result := .error (failMsg 3 e3), attempts := 3, sleeps := [b * 1, b * 2] }) := by
  rcases h1 : get 1 with e1 | r1 <;> rcases h2 : get 2 with e2 | r2 <;>
    rcases h3 : get 3 with e3 | r3 <;>
    simp [fetch_ebrochure, fetchGo, h1, h2, h3, List.range_succ] <;> norm_num

/-- C3 witness: an oracle failing twice then succeeding on the third attempt,
with the default backoff 1.5 = 3/2: success is returned, exactly 3 attempts
are made, and the sleeps are 1.5 and 3.0 seconds. -/
theorem c3_retry_policy_witness :
    fetch_ebrochure
        (fun n => if n = 3 then .ok { text := "p", contentType := none, content := [] }
                  else .error "boom") 3 (3 / 2) =
      { result := .ok { text := "p", contentType := none, content := [] }, attempts := 3,
        sleeps := [3 / 2, 3] } := by
  have h := (c3_retry_policy
    (fun n => if n = 3 then .ok { text := "p", contentType := none, content := [] }
              else .error "boom") (3 / 2)).2.2.2.2.1 "boom" "boom"
    { text := "p", contentType := none, content := [] } (by norm_num) (by norm_num) (by norm_num)
  rw [h]
  norm_num

/-- Concrete checks of the normalizer and validator on the worked examples of
the spec: hyperlink-formula unwrapping, www-prefix completion, and the
validator on a well-formed, a schemeless and an empty value. -/
theorem normalize_url_examples :
    normalize_url (Cell.str " www.example.test/a ") = "https://www.example.test/a"
    ∧ normalize_url (Cell.str "=HYPERLINK(\"https://x.test/a\",\"label\")") = "https://x.test/a"
    ∧ is_valid_url "https://www.example.test/a" = true
    ∧ is_valid_url "example.com/path" = false
    ∧ is_valid_url "" = false := by
  decide

/-- C2: a record whose source cell normalizes to a string failing URL
validation (urlparse scheme not http/https or empty host — which covers the
empty cell, the NaN cell, and a schemeless non-www. cell) is terminal with
the spec status INVALID_URL (code: STATUS "ERROR" with message
"Invalid eBrochure URL"), a null resolved URL, no carfax_files entry, and
zero network requests. -/
theorem c2_invalid_url_terminal (env : RecEnv) (flag : Bool) (idx : Nat) (row : Row)
    (h : is_valid_url (normalize_url row.source) = false) :
    processRecord env flag idx row =
      ({ vin := recordVin idx row.vin, ebrochureUrl := normalize_url row.source,
         carfaxUrl := none, status := "ERROR",
         errorMessage := some "Invalid eBrochure URL", fileName := none }, none, 0)
    ∧ specStatus (processRecord env flag idx row).1 = "INVALID_URL"
    ∧ is_valid_url (normalize_url Cell.na) = false
    ∧ is_valid_url (normalize_url (Cell.str "")) = false
    ∧ is_valid_url (normalize_url (Cell.str "example.com/path")) = false := by
  have hp : processRecord env flag idx row =
      ({ vin := recordVin idx row.vin, ebrochureUrl := normalize_url row.source,
         carfaxUrl := none, status := "ERROR",
         errorMessage := some "Invalid eBrochure URL", fileName := none }, none, 0) := by
    simp [processRecord, h]
  refine ⟨hp, ?_, by decide, by decide, by decide⟩
  rw [hp]
  simp [specStatus]

/-- C2 witness: the concrete cell "bad" fails validation and its record is
terminal with zero network requests. -/
theorem c2_invalid_url_terminal_witness :
    processRecord envOk true 0 rowBad =
      ({ vin := "V2", ebrochureUrl := "bad", carfaxUrl := none, status := "ERROR",
         errorMessage := some "Invalid eBrochure URL", fileName := none }, none, 0)
    ∧ specStatus (processRecord envOk true 0 rowBad).1 = "INVALID_URL" := by
  have h := c2_invalid_url_terminal envOk true 0 rowBad (by decide)
  exact ⟨h.1, h.2.1⟩

/-- Membership survives dropWhile. -/
theorem mem_of_mem_dropWhileCh {p : Char → Bool} {x : Char} :
    ∀ {l : List Char}, x ∈ l.dropWhile p → x ∈ l := by
  intro l h
  induction l with
  | nil => simp at h
  | cons a t ih =>
    rw [List.dropWhile_cons] at h
    by_cases hp : p a
    · simp only [hp, if_true] at h
      exact List.mem_cons_of_mem a (ih h)
    · simp only [hp] at h
      simpa using h

/-- Membership survives stripping at both ends. -/
theorem mem_of_mem_stripEndsL {p : Char → Bool} {x : Char} {l : List Char}
    (h : x ∈ stripEndsL p l) : x ∈ l := by
  unfold stripEndsL at h
  have h1 := mem_of_mem_dropWhileCh (List.mem_reverse.mp h)
  exact mem_of_mem_dropWhileCh (List.mem_reverse.mp h1)

/-- Every element of takeWhile satisfies the predicate. -/
theorem pred_of_mem_takeWhileCh {p : Char → Bool} {x : Char} :
    ∀ {l : List Char}, x ∈ l.takeWhile p → p x = true := by
  intro l h
  induction l with
  | nil => simp at h
  | cons a t ih =>
    rw [List.takeWhile_cons] at h
    by_cases hp : p a
    · simp only [hp, if_true] at h
      rcases List.mem_cons.mp h with rfl | hm
      · exact hp
      · exact ih hm
    · simp [hp] at h

/-- A successful case-insensitive literal match returns a subset of the
input. -/
theorem dropLitCI_subset :
    ∀ {lit l r : List Char}, dropLitCI lit l = some r → ∀ x ∈ r, x ∈ l := by
  intro lit
  induction lit with
  | nil =>
    intro l r h x hx
    rw [dropLitCI] at h
    cases h
    exact hx
  | cons p ps ih =>
    intro l r h x hx
    cases l with
    | nil => simp [dropLitCI] at h
    | cons c cs =>
      rw [dropLitCI] at h
      by_cases hc : lowerAscii c = p
      · rw [if_pos hc] at h
        exact List.mem_cons_of_mem c (ih h x hx)
      · rw [if_neg hc] at h
        cases h

/-- A list with no double quote never fullmatches the hyperlink pattern. -/
theorem hyperlinkExtractL_no_quote {l : List Char} (hq : ∀ x ∈ l, x ≠ '"') :
    hyperlinkExtractL l = none := by
  unfold hyperlinkExtractL
  cases hd : dropLitCI hyperLit l with
  | none => rfl
  | some rest =>
    cases rest with
    | nil => rfl
    | cons c0 rest1 =>
      have hc0 : c0 ∈ l := dropLitCI_subset hd c0 (List.mem_cons_self c0 rest1)
      simp [hq c0 hc0]

/-- The captured group of a hyperlink fullmatch contains no double quote. -/
theorem hyperlinkExtractL_group {l g : List Char} (h : hyperlinkExtractL l = some g) :
    ∀ x ∈ g, x ≠ '"' := by
  unfold hyperlinkExtractL at h
  cases hd : dropLitCI hyperLit l with
  | none => rw [hd] at h; cases h
  | some rest =>
    rw [hd] at h
    cases rest with
    | nil => cases h
    | cons c0 rest1 =>
      dsimp only at h
      by_cases hc : c0 = '"'
      · rw [if_pos hc] at h
        by_cases hg : rest1.takeWhile (fun c => c ≠ '"') = []
        · simp only [hg, if_pos rfl] at h
          cases h
        · simp only [if_neg hg] at h
          have hgeq : g = rest1.takeWhile (fun c => c ≠ '"') := by
            cases hdw : rest1.dropWhile (fun c => c ≠ '"') with
            | nil => rw [hdw] at h; cases h
            | cons c2 afterQ =>
              rw [hdw] at h
              dsimp only at h
              by_cases hc2 : c2 = '"'
              · rw [if_pos hc2] at h
                unfold hyperlinkTail at h
                by_cases ht : afterQ = [')']
                · rw [if_pos ht] at h
                  cases h
                  rfl
                · rw [if_neg ht] at h
                  cases afterQ with
                  | nil => cases h
                  | cons ca tail1 =>
                    cases tail1 with
                    | nil => cases h
                    | cons cb rest3 =>
                      dsimp only at h
                      by_cases hab : ca = ',' ∧ cb = '"'
                      · rw [if_pos hab] at h
                        by_cases hcl : rest3.dropWhile (fun c => c ≠ '"') = ['"', ')']
                        · rw [if_pos hcl] at h
                          cases h
                          rfl
                        · rw [if_neg hcl] at h
                          cases h
                      · rw [if_neg hab] at h
                        cases h
              · rw [if_neg hc2] at h
                cases h
          intro x hx
          rw [hgeq] at hx
          have := pred_of_mem_takeWhileCh hx
          simpa using this
      · rw [if_neg hc] at h
        cases h

/-- A list whose head does not lower to the equals sign never fullmatches the
hyperlink pattern. -/
theorem hyperlinkExtractL_head {c : Char} {t : List Char} (hc : lowerAscii c ≠ '=') :
    hyperlinkExtractL (c :: t) = none := by
  unfold hyperlinkExtractL
  have hd : dropLitCI hyperLit (c :: t) = none := by
    unfold hyperLit dropLitCI
    simp [hc]
  rw [hd]

/-- The output of normalization never starts with www. (a www. value gets
https:// prepended in the same call). -/
theorem normalizeStr_no_www (s : String) :
    startsWithStr "www." (normalizeStr s) = false := by
  unfold normalizeStr
  dsimp only
  split
  case isTrue h =>
    unfold startsWithStr
    rfl
  case isFalse h =>
    simpa using h

/-- The output of normalization never fullmatches the hyperlink pattern:
either the pattern already failed on it, or it is a captured group (which has
no double quote), or it starts with the h of a prepended https://. -/
theorem normalizeStr_no_hyper (s : String) :
    hyperlinkExtract (normalizeStr s) = none := by
  unfold normalizeStr
  dsimp only
  cases hx : hyperlinkExtract (pyStripQuotes (pyStrip s)) with
  | none =>
    dsimp only
    split
    case isTrue h =>
      unfold hyperlinkExtract
      have : ("https://" ++ pyStripQuotes (pyStrip s)).data =
          'h' :: ("ttps://" ++ pyStripQuotes (pyStrip s)).data := rfl
      rw [this, hyperlinkExtractL_head (by decide)]
      rfl
    case isFalse h => exact hx
  | some g =>
    dsimp only
    split
    case isTrue h =>
      unfold hyperlinkExtract
      have : ("https://" ++ pyStrip g).data = 'h' :: ("ttps://" ++ pyStrip g).data := rfl
      rw [this, hyperlinkExtractL_head (by decide)]
      rfl
    case isFalse h =>
      unfold hyperlinkExtract at hx ⊢
      cases hg : hyperlinkExtractL (pyStripQuotes (pyStrip s)).data with
      | none => rw [hg] at hx; cases hx
      | some gl =>
        rw [hg] at hx
        cases hx
        have hnq : ∀ x ∈ (pyStrip (String.mk gl)).data, x ≠ '"' := by
          intro x hxm
          have : x ∈ gl := mem_of_mem_stripEndsL hxm
          exact hyperlinkExtractL_group hg x this
        rw [hyperlinkExtractL_no_quote hnq]
        rfl

/-- Normalization is the identity on a value that a further whitespace strip
and quote strip leave unchanged, that does not match the hyperlink pattern,
and that does not start with www. . -/
theorem normalizeStr_fixed (y : String) (h1 : pyStrip y = y)
    (h2 : pyStripQuotes y = y) (hx : hyperlinkExtract y = none)
    (hw : startsWithStr "www." y = false) : normalizeStr y = y := by
  unfold normalizeStr
  rw [h1, h2]
  dsimp only
  rw [hx]
  simp [hw]

/-- C6 counterexample: the claim's normalizer (null/non-string to empty
string; one layer of enclosing quotes) disagrees with the code on a
non-string non-null cell — str(5) is "5", not "" — and on a doubly quoted
cell, where str.strip removes both quote layers. -/
theorem c6_normalize_counterexample :
    (normalize_url (Cell.other "5") ≠ specNormalizeC6 (Cell.other "5")
      ∧ normalize_url (Cell.other "5") = "5"
      ∧ specNormalizeC6 (Cell.other "5") = "")
    ∧ (normalize_url (Cell.str "''a''") ≠ specNormalizeC6 (Cell.str "''a''")
      ∧ normalize_url (Cell.str "''a''") = "a"
      ∧ specNormalizeC6 (Cell.str "''a''") = "'a'") := by
  decide

/-- C6 (amended): normalize coerces null to the empty string and any other
non-string value to its str() rendering, strips surrounding whitespace and
then every leading and trailing single/double-quote character, replaces a
full-string case-insensitive =HYPERLINK("url"[,"label"]) match by the
captured URL re-trimmed of whitespace, prepends https:// exactly when the
result then begins with www., and rewrites nothing else. -/
theorem c6_normalize_spec (c : Cell) :
    normalize_url c = specNormalizeC6Amended c := by
  cases c <;> rfl

/-- C8 counterexample: normalization is not idempotent — "' x '" normalizes
to " x " (the quote strip exposes whitespace), which normalizes further to
"x". -/
theorem c8_normalize_not_idempotent :
    normalize_url (Cell.str "' x '") = " x "
    ∧ normalize_url (Cell.str (normalize_url (Cell.str "' x '"))) = "x"
    ∧ normalize_url (Cell.str (normalize_url (Cell.str "' x '")))
        ≠ normalize_url (Cell.str "' x '") := by
  decide

/-- C8 (amended): normalization is not idempotent in general — the quote
strip can expose whitespace (or the hyperlink unwrap can expose quotes) that
only a second application removes; it is idempotent on every input whose
normalized value is unchanged by a further whitespace strip and quote strip:
the normalized value never starts with www. and never matches the hyperlink
pattern again, so under the two cleanness hypotheses the second application
is the identity. In particular a normalized well-formed http(s) URL is a
fixed point. -/
theorem c8_normalize_idempotent_on_clean (c : Cell)
    (h1 : pyStrip (normalize_url c) = normalize_url c)
    (h2 : pyStripQuotes (normalize_url c) = normalize_url c) :
    normalize_url (Cell.str (normalize_url c)) = normalize_url c := by
  have hx := normalizeStr_no_hyper (cellRaw c)
  have hw := normalizeStr_no_www (cellRaw c)
  show normalizeStr (cellRaw (Cell.str (normalize_url c))) = normalize_url c
  rw [show cellRaw (Cell.str (normalize_url c)) = normalize_url c from rfl]
  exact normalizeStr_fixed (normalize_url c) h1 h2 hx hw

/-- C8 witness: an already-normalized plain https URL is a fixed point of
normalization. -/
theorem c8_normalize_idempotent_witness :
    normalize_url (Cell.str (normalize_url (Cell.str "https://a.test/x")))
      = normalize_url (Cell.str "https://a.test/x") :=
  c8_normalize_idempotent_on_clean (Cell.str "https://a.test/x") (by decide) (by decide)

/-- mapIdxFrom length. -/
theorem mapIdxFrom_length (f : Nat → Row → RecordResult) :
    ∀ (i : Nat) (rows : List Row), (mapIdxFrom f i rows).length = rows.length := by
  intro i rows
  induction rows generalizing i with
  | nil => rfl
  | cons r rs ih => simp [mapIdxFrom, ih]

/-- mapIdxFrom indexing. -/
theorem mapIdxFrom_getElem (f : Nat → Row → RecordResult) :
    ∀ (rows : List Row) (i j : Nat),
      (mapIdxFrom f i rows)[j]? = (rows[j]?).map (fun r => f (i + j) r) := by
  intro rows
  induction rows with
  | nil => intro i j; simp [mapIdxFrom]
  | cons r rs ih =>
    intro i j
    cases j with
    | zero => simp [mapIdxFrom]
    | succ j1 =>
      have harith : i + (j1 + 1) = (i + 1) + j1 := by omega
      simp only [mapIdxFrom, List.getElem?_cons_succ, ih (i + 1) j1, harith]

/-- The results list of the loop: one processRecord output per row, at the
row's index, in input order. -/
theorem runLoop_results (envs : Nat → RecEnv) (flag : Bool) :
    ∀ (rows : List Row) (i : Nat) (files : List (String × String × List Nat)),
      (runLoop envs flag i rows files).1 =
        mapIdxFrom (fun j row => (processRecord (envs j) flag j row).1) i rows := by
  intro rows
  induction rows with
  | nil => intro i files; rfl
  | cons r rs ih =>
    intro i files
    rw [runLoop, mapIdxFrom]
    dsimp only
    rw [ih]

/-- C1: the batch always completes with exactly one RecordResult per input
row, in input order — the i-th result is the processRecord output of the i-th
row, whatever the network oracle did (success, HTTP error or raised
exception are all covered by the oracle's Except values), and a result table
is produced even if every record failed. -/
theorem c1_per_record_isolation (envs : Nat → RecEnv) (flag : Bool) (table : List Row) :
    (runBatch envs flag table).results =
      mapIdxFrom (fun i row => (processRecord (envs i) flag i row).1) 0 table
    ∧ (runBatch envs flag table).results.length = table.length
    ∧ ∀ i : Nat, (runBatch envs flag table).results[i]? =
        (table[i]?).map (fun row => (processRecord (envs i) flag i row).1) := by
  have hres : (runBatch envs flag table).results =
      mapIdxFrom (fun i row => (processRecord (envs i) flag i row).1) 0 table :=
    runLoop_results envs flag table 0 []
  refine ⟨hres, ?_, ?_⟩
  · rw [hres]
    exact mapIdxFrom_length _ 0 table
  · intro i
    rw [hres, mapIdxFrom_getElem]
    simp

/-- Every branch of processRecord reports the same identifier, the one the
loop computed from the identifier cell. -/
theorem processRecord_vin (env : RecEnv) (flag : Bool) (idx : Nat) (row : Row) :
    (processRecord env flag idx row).1.vin = recordVin idx row.vin := by
  unfold processRecord
  dsimp only
  split
  · split
    · rfl
    · split
      · rfl
      · split
        · split
          · rfl
          · rfl
        · rfl
  · rfl

/-- The carfax_files entry of one record: either there is none and the record
did not reach OK_DOWNLOADED, or there is exactly one, keyed by the record's
identifier, carrying the reported file name. -/
theorem processRecord_fileEntry (env : RecEnv) (flag : Bool) (idx : Nat) (row : Row) :
    ((processRecord env flag idx row).2.1 = none
      ∧ (processRecord env flag idx row).1.status ≠ "OK_DOWNLOADED")
    ∨ (∃ fn c, (processRecord env flag idx row).2.1 =
          some ((processRecord env flag idx row).1.vin, fn, c)
        ∧ (processRecord env flag idx row).1.status = "OK_DOWNLOADED"
        ∧ (processRecord env flag idx row).1.fileName = some fn) := by
  unfold processRecord
  dsimp only
  split
  · split
    · refine Or.inl ⟨rfl, ?_⟩
      simp
    · split
      · refine Or.inl ⟨rfl, ?_⟩
        simp
      · split
        · split
          · exact Or.inr ⟨_, _, rfl, rfl, rfl⟩
          · refine Or.inl ⟨rfl, ?_⟩
            simp
        · refine Or.inl ⟨rfl, ?_⟩
          simp
  · refine Or.inl ⟨rfl, ?_⟩
    simp

/-- Looking a key up in the first-kept deduplication of an association list is
looking it up in the original list. -/
theorem assocFind_dropDupFirst (k : String) :
    ∀ (l : List (String × Option String)) (seen : List String), k ∉ seen →
      assocFind (dropDupFirst seen l) k = (l.find? (fun p => p.1 == k)).map Prod.snd := by
  intro l
  induction l with
  | nil => intro seen hk; rfl
  | cons p rest ih =>
    intro seen hk
    obtain ⟨k1, v1⟩ := p
    rw [dropDupFirst]
    by_cases hs : k1 ∈ seen
    · rw [if_pos hs, ih seen hk]
      have hne : (k1 == k) = false := by
        rw [beq_eq_false_iff_ne]
        intro hkk
        exact hk (hkk ▸ hs)
      rw [List.find?_cons_of_neg rest (by simp [hne])]
    · rw [if_neg hs]
      by_cases hk1 : k1 = k
      · subst hk1
        unfold assocFind
        rw [List.find?_cons_of_pos _ (by simp), List.find?_cons_of_pos _ (by simp)]
      · have hk2 : k ∉ k1 :: seen := by
          intro hmem
          rcases List.mem_cons.mp hmem with h | h
          · exact hk1 h.symm
          · exact hk h
        unfold assocFind
        rw [List.find?_cons_of_neg _ (by simp [hk1]), List.find?_cons_of_neg _ (by simp [hk1])]
        exact ih (k1 :: seen) hk2

/-- find? over the VIN/URL projection of a results list. -/
theorem find?_map_pairs (k : String) :
    ∀ rs : List RecordResult,
      (rs.map (fun rr => (rr.vin, rr.carfaxUrl))).find? (fun p => p.1 == k)
        = (rs.find? (fun rr => rr.vin == k)).map (fun rr => (rr.vin, rr.carfaxUrl)) := by
  intro rs
  induction rs with
  | nil => rfl
  | cons rr rest ih =>
    by_cases h : rr.vin = k
    · simp only [List.map_cons]
      rw [List.find?_cons_of_pos _ (by simp [h]), List.find?_cons_of_pos _ (by simp [h])]
      rfl
    · simp only [List.map_cons]
      rw [List.find?_cons_of_neg _ (by simp [h]), List.find?_cons_of_neg _ (by simp [h])]
      exact ih

/-- The merged cell for a key is the resolved URL of the first result carrying
that key. -/
theorem carfaxCell_eq_firstResultUrl (rs : List RecordResult) (k : String) :
    (match assocFind (carfaxLookupList rs) k with
     | some v => v
     | none => none) = firstResultUrl rs k := by
  unfold carfaxLookupList firstResultUrl
  rw [assocFind_dropDupFirst k _ [] (by simp), find?_map_pairs k rs]
  cases rs.find? (fun rr => rr.vin == k) with
  | none => rfl
  | some rr => rfl

/-- C5: the enriched table pairs every original row, unchanged, with one
appended resolved-URL cell; for a table whose identifier cells are non-null
(null identifier cells degrade the join and are the subject of the C10
analysis), the appended cell of row i is the resolvedUrl of the first
RecordResult carrying that row's identifier — later results for a duplicate
identifier are ignored — and is null when that identifier has no successful
resolution; and the i-th result row itself carries the same identifier
string. -/
theorem c5_merge_first_seen (envs : Nat → RecEnv) (flag : Bool) (table : List Row)
    (h : ∀ r ∈ table, r.vin ≠ Cell.na) :
    (runBatch envs flag table).merged.length = table.length
    ∧ (∀ (i : Nat) (row : Row), table[i]? = some row →
        (runBatch envs flag table).merged[i]? =
          some (row, firstResultUrl (runBatch envs flag table).results (mergeKey row.vin)))
    ∧ (∀ (i : Nat) (row : Row), table[i]? = some row →
        ∃ rr : RecordResult, (runBatch envs flag table).results[i]? = some rr
          ∧ rr.vin = mergeKey row.vin) := by
  have hm : (runBatch envs flag table).merged =
      mergedTable (runBatch envs flag table).results table := rfl
  refine ⟨?_, ?_, ?_⟩
  · rw [hm]
    unfold mergedTable
    simp
  · intro i row hrow
    rw [hm]
    unfold mergedTable
    rw [List.getElem?_map, hrow]
    simp only [Option.map_some']
    rw [carfaxCell_eq_firstResultUrl]
  · intro i row hrow
    have hidx : (runBatch envs flag table).results[i]? =
        (table[i]?).map (fun r => (processRecord (envs i) flag i r).1) := by
      rw [show (runBatch envs flag table).results = (runLoop envs flag 0 table []).1 from rfl,
        runLoop_results, mapIdxFrom_getElem]
      simp
    rw [hidx, hrow]
    refine ⟨_, rfl, ?_⟩
    rw [processRecord_vin]
    have hna := h row (List.getElem?_mem hrow)
    cases hv : row.vin with
    | na => exact absurd hv hna
    | str s => rfl
    | other r => rfl

/-- C5 witness: a one-row table with identifier V1 whose record resolves; the
enriched table pairs the row with the first result's resolved URL. -/
theorem c5_merge_first_seen_witness :
    (runBatch (fun _ => envOk) true [rowV1]).merged[0]? =
      some (rowV1, firstResultUrl (runBatch (fun _ => envOk) true [rowV1]).results "V1") := by
  have h := (c5_merge_first_seen (fun _ => envOk) true [rowV1] (by decide)).2.1 0 rowV1 (by decide)
  exact h

/-- Key membership after a dict insertion. -/
theorem dictInsert_key_mem (k : String) (v : String × List Nat) :
    ∀ (l : List (String × String × List Nat)) (x : String),
      (∃ p ∈ dictInsert k v l, p.1 = x) ↔ x = k ∨ ∃ p ∈ l, p.1 = x := by
  intro l
  induction l with
  | nil =>
    intro x
    simp [dictInsert, eq_comm]
  | cons q rest ih =>
    intro x
    obtain ⟨k1, v1⟩ := q
    rw [dictInsert]
    by_cases h : k1 = k
    · subst h
      constructor
      · intro ⟨p, hp, hpx⟩
        rw [if_pos rfl] at hp
        rcases List.mem_cons.mp hp with rfl | hm
        · exact Or.inl hpx.symm
        · exact Or.inr ⟨p, List.mem_cons_of_mem _ hm, hpx⟩
      · intro hx
        rw [if_pos rfl]
        rcases hx with hxk | ⟨p, hp, hpx⟩
        · exact ⟨(k1, v), List.mem_cons_self _ _, hxk.symm⟩
        · rcases List.mem_cons.mp hp with heq | hm
          · exact ⟨(k1, v), List.mem_cons_self _ _, by rw [heq] at hpx; exact hpx⟩
          · exact ⟨p, List.mem_cons_of_mem _ hm, hpx⟩
    · rw [if_neg h]
      constructor
      · intro ⟨p, hp, hpx⟩
        rcases List.mem_cons.mp hp with heq | hm
        · exact Or.inr ⟨(k1, v1), List.mem_cons_self _ _, by rw [heq] at hpx; exact hpx⟩
        · rcases (ih x).mp ⟨p, hm, hpx⟩ with hk | ⟨q, hq, hqx⟩
          · exact Or.inl hk
          · exact Or.inr ⟨q, List.mem_cons_of_mem _ hq, hqx⟩
      · intro hx
        rcases hx with hxk | ⟨p, hp, hpx⟩
        · rcases (ih x).mpr (Or.inl hxk) with ⟨p, hp, hpx⟩
          exact ⟨p, List.mem_cons_of_mem _ hp, hpx⟩
        · rcases List.mem_cons.mp hp with heq | hm
          · exact ⟨(k1, v1), List.mem_cons_self _ _, by rw [heq] at hpx; exact hpx⟩
          · rcases (ih x).mpr (Or.inr ⟨p, hm, hpx⟩) with ⟨q, hq, hqx⟩
            exact ⟨q, List.mem_cons_of_mem _ hq, hqx⟩

/-- A pair in the dict after insertion is the inserted pair or an original
one. -/
theorem dictInsert_pair_mem (k : String) (v : String × List Nat) :
    ∀ (l : List (String × String × List Nat)) (p : String × String × List Nat),
      p ∈ dictInsert k v l → p = (k, v) ∨ p ∈ l := by
  intro l
  induction l with
  | nil =>
    intro p hp
    simp [dictInsert] at hp
    exact Or.inl hp
  | cons q rest ih =>
    intro p hp
    obtain ⟨k1, v1⟩ := q
    rw [dictInsert] at hp
    by_cases h : k1 = k
    · rw [if_pos h] at hp
      rcases List.mem_cons.mp hp with rfl | hm
      · exact Or.inl rfl
      · exact Or.inr (List.mem_cons_of_mem _ hm)
    · rw [if_neg h] at hp
      rcases List.mem_cons.mp hp with rfl | hm
      · exact Or.inr (List.mem_cons_self _ _)
      · rcases ih p hm with hk | hm1
        · exact Or.inl hk
        · exact Or.inr (List.mem_cons_of_mem _ hm1)

/-- Dict insertion keeps the keys duplicate-free. -/
theorem dictInsert_keys_nodup (k : String) (v : String × List Nat) :
    ∀ l : List (String × String × List Nat),
      (l.map Prod.fst).Nodup → ((dictInsert k v l).map Prod.fst).Nodup := by
  intro l
  induction l with
  | nil =>
    intro _
    simp [dictInsert]
  | cons q rest ih =>
    intro hnd
    obtain ⟨k1, v1⟩ := q
    rw [dictInsert]
    simp only [List.map_cons, List.nodup_cons] at hnd
    by_cases h : k1 = k
    · subst h
      have hred : (if k1 = k1 then (k1, v) :: rest else (k1, v1) :: dictInsert k1 v rest)
          = (k1, v) :: rest := if_pos rfl
      rw [hred]
      simp only [List.map_cons, List.nodup_cons]
      exact hnd
    · rw [if_neg h]
      simp only [List.map_cons, List.nodup_cons]
      refine ⟨?_, ih hnd.2⟩
      intro hmem
      rcases List.mem_map.mp hmem with ⟨p, hp, hpx⟩
      rcases (dictInsert_key_mem k v rest k1).mp ⟨p, hp, hpx⟩ with hk | ⟨q, hq, hqx⟩
      · exact h hk
      · exact hnd.1 (List.mem_map.mpr ⟨q, hq, hqx⟩)

/-- Unfolding of the loop on a cons cell. -/
theorem runLoop_cons (envs : Nat → RecEnv) (flag : Bool) (i : Nat) (r : Row)
    (rs : List Row) (files : List (String × String × List Nat)) :
    runLoop envs flag i (r :: rs) files =
      ((processRecord (envs i) flag i r).1 ::
         (runLoop envs flag (i + 1) rs
           (filesStep (processRecord (envs i) flag i r).2.1 files)).1,
       (runLoop envs flag (i + 1) rs
         (filesStep (processRecord (envs i) flag i r).2.1 files)).2) := by
  rw [runLoop]

/-- The carfax_files invariant of the loop: (a) the dict's keys are the
initial keys plus exactly the identifiers of records that reached
OK_DOWNLOADED, (b) the keys stay duplicate-free, and (c) every entry not
already present initially belongs to a record that reached OK_DOWNLOADED
with that identifier and that file name. -/
theorem runLoop_files (envs : Nat → RecEnv) (flag : Bool) :
    ∀ (rows : List Row) (i : Nat) (files0 : List (String × String × List Nat)),
      (∀ x : String,
        (∃ p ∈ (runLoop envs flag i rows files0).2, p.1 = x) ↔
          (∃ p ∈ files0, p.1 = x)
          ∨ ∃ rr ∈ (runLoop envs flag i rows files0).1,
              rr.status = "OK_DOWNLOADED" ∧ rr.vin = x)
      ∧ ((files0.map Prod.fst).Nodup →
          ((runLoop envs flag i rows files0).2.map Prod.fst).Nodup)
      ∧ (∀ p ∈ (runLoop envs flag i rows files0).2,
          p ∈ files0
          ∨ ∃ rr ∈ (runLoop envs flag i rows files0).1,
              rr.status = "OK_DOWNLOADED" ∧ rr.vin = p.1
                ∧ rr.fileName = some p.2.1) := by
  intro rows
  induction rows with
  | nil =>
    intro i files0
    refine ⟨?_, ?_, ?_⟩
    · intro x
      simp [runLoop]
    · intro hnd
      simpa [runLoop] using hnd
    · intro p hp
      exact Or.inl (by simpa [runLoop] using hp)
  | cons r rs ih =>
    intro i files0
    rw [runLoop_cons]
    dsimp only
    rcases processRecord_fileEntry (envs i) flag i r with ⟨hfe, hst⟩ | ⟨fn, cb, hfe, hst, hfn⟩
    · -- no file entry: the dict is untouched by this record
      rw [hfe]
      have hF : filesStep none files0 = files0 := rfl
      rw [hF]
      obtain ⟨iha, ihb, ihc⟩ := ih (i + 1) files0
      refine ⟨?_, ihb, ?_⟩
      · intro x
        rw [iha x]
        constructor
        · intro hcase
          rcases hcase with hfiles | ⟨rr, hrr, hok, hvin⟩
          · exact Or.inl hfiles
          · exact Or.inr ⟨rr, List.mem_cons_of_mem _ hrr, hok, hvin⟩
        · intro hcase
          rcases hcase with hfiles | ⟨rr, hrr, hok, hvin⟩
          · exact Or.inl hfiles
          · rcases List.mem_cons.mp hrr with heq | hm
            · exact absurd (heq ▸ hok) hst
            · exact Or.inr ⟨rr, hm, hok, hvin⟩
      · intro p hp
        rcases ihc p hp with hp0 | ⟨rr, hrr, hok, hvin, hname⟩
        · exact Or.inl hp0
        · exact Or.inr ⟨rr, List.mem_cons_of_mem _ hrr, hok, hvin, hname⟩
    · -- a file entry keyed by the record's identifier
      rw [hfe]
      have hF : filesStep (some ((processRecord (envs i) flag i r).1.vin, fn, cb)) files0 =
          dictInsert (processRecord (envs i) flag i r).1.vin (fn, cb) files0 := rfl
      rw [hF]
      obtain ⟨iha, ihb, ihc⟩ :=
        ih (i + 1) (dictInsert (processRecord (envs i) flag i r).1.vin (fn, cb) files0)
      refine ⟨?_, ?_, ?_⟩
      · intro x
        rw [iha x, dictInsert_key_mem]
        constructor
        · intro hcase
          rcases hcase with (hxvin | hfiles) | ⟨rr, hrr, hok, hvin⟩
          · exact Or.inr ⟨(processRecord (envs i) flag i r).1,
              List.mem_cons_self _ _, hst, hxvin.symm⟩
          · exact Or.inl hfiles
          · exact Or.inr ⟨rr, List.mem_cons_of_mem _ hrr, hok, hvin⟩
        · intro hcase
          rcases hcase with hfiles | ⟨rr, hrr, hok, hvin⟩
          · exact Or.inl (Or.inr hfiles)
          · rcases List.mem_cons.mp hrr with heq | hm
            · exact Or.inl (Or.inl (by rw [heq] at hvin; exact hvin.symm))
            · exact Or.inr ⟨rr, hm, hok, hvin⟩
      · intro hnd
        exact ihb (dictInsert_keys_nodup _ _ files0 hnd)
      · intro p hp
        rcases ihc p hp with hpIns | ⟨rr, hrr, hok, hvin, hname⟩
        · rcases dictInsert_pair_mem _ _ files0 p hpIns with heq | hp0
          · refine Or.inr ⟨(processRecord (envs i) flag i r).1,
              List.mem_cons_self _ _, hst, ?_, ?_⟩
            · rw [heq]
            · rw [heq]
              exact hfn
          · exact Or.inl hp0
        · exact Or.inr ⟨rr, List.mem_cons_of_mem _ hrr, hok, hvin, hname⟩

/-- Every member of mapIdxFrom is a processRecord output of some row. -/
theorem mem_mapIdxFrom {f : Nat → Row → RecordResult} :
    ∀ {rows : List Row} {i : Nat} {rr : RecordResult},
      rr ∈ mapIdxFrom f i rows → ∃ j r, rr = f j r := by
  intro rows
  induction rows with
  | nil =>
    intro i rr h
    simp [mapIdxFrom] at h
  | cons r rs ih =>
    intro i rr h
    rw [mapIdxFrom] at h
    rcases List.mem_cons.mp h with heq | hm
    · exact ⟨i, r, heq⟩
    · exact ih hm

/-- A status other than the literal DOWNLOADED maps to the spec status
DOWNLOADED exactly when it is the code status OK_DOWNLOADED. -/
theorem specStatus_downloaded {rr : RecordResult} (h : rr.status ≠ "DOWNLOADED") :
    specStatus rr = "DOWNLOADED" ↔ rr.status = "OK_DOWNLOADED" := by
  unfold specStatus
  split_ifs <;> simp_all

/-- No branch of processRecord emits the literal status DOWNLOADED. -/
theorem processRecord_status_ne (env : RecEnv) (flag : Bool) (idx : Nat) (row : Row) :
    (processRecord env flag idx row).1.status ≠ "DOWNLOADED" := by
  unfold processRecord
  dsimp only
  split
  · split
    · simp
    · split
      · simp
      · split
        · split <;> simp
        · simp
  · simp

/-- C9: with downloads requested, the archive dict has duplicate-free keys,
its keys are exactly the identifiers of records with spec status DOWNLOADED
(code status OK_DOWNLOADED) — at most one entry per identifier — every entry
carries the file name of such a record; and the ZIP is offered exactly when
some record reached DOWNLOADED, the caller-visible warning exactly when none
did. -/
theorem c9_archive_only_downloaded (envs : Nat → RecEnv) (table : List Row) :
    ((runBatch envs true table).files.map Prod.fst).Nodup
    ∧ (∀ x : String,
        (∃ p ∈ (runBatch envs true table).files, p.1 = x) ↔
          ∃ rr ∈ (runBatch envs true table).results,
            specStatus rr = "DOWNLOADED" ∧ rr.vin = x)
    ∧ (∀ p ∈ (runBatch envs true table).files,
        ∃ rr ∈ (runBatch envs true table).results,
          specStatus rr = "DOWNLOADED" ∧ rr.vin = p.1 ∧ rr.fileName = some p.2.1)
    ∧ ((runBatch envs true table).zipEntries = none ∨
        (runBatch envs true table).zipEntries =
          some ((runBatch envs true table).files.map (fun p => (p.2.1, p.2.2))))
    ∧ ((runBatch envs true table).zipEntries = none ↔
        ∀ rr ∈ (runBatch envs true table).results, specStatus rr ≠ "DOWNLOADED")
    ∧ ((runBatch envs true table).warning = true ↔
        ∀ rr ∈ (runBatch envs true table).results, specStatus rr ≠ "DOWNLOADED") := by
  obtain ⟨iha, ihb, ihc⟩ := runLoop_files envs true table 0 []
  have hspec : ∀ rr ∈ (runLoop envs true 0 table []).1,
      (specStatus rr = "DOWNLOADED" ↔ rr.status = "OK_DOWNLOADED") := by
    intro rr hm
    rw [runLoop_results] at hm
    rcases mem_mapIdxFrom hm with ⟨j, r, heq⟩
    rw [heq]
    exact specStatus_downloaded (processRecord_status_ne _ _ _ _)
  have keyiff : ∀ x : String, (∃ p ∈ (runLoop envs true 0 table []).2, p.1 = x) ↔
      ∃ rr ∈ (runLoop envs true 0 table []).1,
        rr.status = "OK_DOWNLOADED" ∧ rr.vin = x := by
    intro x
    rw [iha x]
    simp
  have hempty : (runLoop envs true 0 table []).2 = [] ↔
      ∀ rr ∈ (runLoop envs true 0 table []).1, rr.status ≠ "OK_DOWNLOADED" := by
    constructor
    · intro he rr hm hok
      rcases (keyiff rr.vin).mpr ⟨rr, hm, hok, rfl⟩ with ⟨p, hp, _⟩
      rw [he] at hp
      simp at hp
    · intro hno
      cases hfe : (runLoop envs true 0 table []).2 with
      | nil => rfl
      | cons p ps =>
        have hx : ∃ q ∈ (runLoop envs true 0 table []).2, q.1 = p.1 := by
          rw [hfe]
          exact ⟨p, List.mem_cons_self _ _, rfl⟩
        rcases (keyiff p.1).mp hx with ⟨rr, hm, hok, _⟩
        exact absurd hok (hno rr hm)
  have hforall : (∀ rr ∈ (runLoop envs true 0 table []).1, specStatus rr ≠ "DOWNLOADED") ↔
      (∀ rr ∈ (runLoop envs true 0 table []).1, rr.status ≠ "OK_DOWNLOADED") := by
    constructor
    · intro hall rr hm hok
      exact hall rr hm ((hspec rr hm).mpr hok)
    · intro hall rr hm hok
      exact hall rr hm ((hspec rr hm).mp hok)
  have hzip : (runBatch envs true table).zipEntries =
      (if !(runLoop envs true 0 table []).2.isEmpty then
        some ((runLoop envs true 0 table []).2.map (fun p => (p.2.1, p.2.2))) else none) := by
    show (if (true && !(runLoop envs true 0 table []).2.isEmpty) = true then _ else none) = _
    simp
  refine ⟨?_, ?_, ?_, ?_, ?_, ?_⟩
  · exact ihb (by simp)
  · intro x
    rw [show (runBatch envs true table).files = (runLoop envs true 0 table []).2 from rfl,
      keyiff x]
    constructor
    · intro ⟨rr, hm, hok, hvin⟩
      exact ⟨rr, hm, (hspec rr hm).mpr hok, hvin⟩
    · intro ⟨rr, hm, hok, hvin⟩
      exact ⟨rr, hm, (hspec rr hm).mp hok, hvin⟩
  · intro p hp
    rcases ihc p hp with hp0 | ⟨rr, hm, hok, hvin, hname⟩
    · simp at hp0
    · exact ⟨rr, hm, (hspec rr hm).mpr hok, hvin, hname⟩
  · rw [hzip, show (runBatch envs true table).files = (runLoop envs true 0 table []).2 from rfl]
    cases hfe : (runLoop envs true 0 table []).2 with
    | nil => simp
    | cons p ps => simp
  · rw [show (runBatch envs true table).results = (runLoop envs true 0 table []).1 from rfl,
      hzip, hforall, ← hempty]
    cases hfe : (runLoop envs true 0 table []).2 with
    | nil => simp
    | cons p ps => simp
  · rw [show (runBatch envs true table).warning =
        (true && (runLoop envs true 0 table []).2.isEmpty) from rfl,
      show (runBatch envs true table).results = (runLoop envs true 0 table []).1 from rfl,
      hforall, ← hempty]
    cases hfe : (runLoop envs true 0 table []).2 with
    | nil => simp
    | cons p ps => simp

/-- C9 witness: with one resolving and downloading record the ZIP is offered
with exactly that entry; with a failing record no ZIP is offered and the
warning is shown. -/
theorem c9_archive_only_downloaded_witness :
    (∃ rr ∈ (runBatch (fun _ => envOk) true [rowV1]).results,
      specStatus rr = "DOWNLOADED" ∧ rr.vin = "V1")
    ∧ ((runBatch (fun _ => envDocFail) true [rowV1]).warning = true) := by
  constructor
  · exact ((c9_archive_only_downloaded (fun _ => envOk) [rowV1]).2.1 "V1").mp
      (by refine ⟨("V1", "V1.pdf", [1, 2]), ?_, rfl⟩; decide)
  · exact ((c9_archive_only_downloaded (fun _ => envDocFail) [rowV1]).2.2.2.2.2).mpr
      (by decide)

/-- The extension is always .pdf or .html. -/
theorem extOf_cases (ct : Option String) : extOf ct = ".pdf" ∨ extOf ct = ".html" := by
  unfold extOf
  split
  · exact Or.inl rfl
  · exact Or.inr rfl

/-- C4: when the record is past resolution (valid URL, successful primary
fetch, anchor with a non-empty href) and the single document fetch fails,
the record is terminal with code status URL_ONLY — the spec status
DOWNLOAD_FAILED — while its result still carries the resolved (stripped)
href; the error message carries the cause and no archive entry is made. -/
theorem c4_download_failed_keeps_url (env : RecEnv) (idx : Nat) (row : Row)
    (resp : HttpResponse) (href e : String)
    (hvalid : is_valid_url (normalize_url row.source) = true)
    (hfetch : (fetch_ebrochure env.get 3 (3 / 2)).result = .ok resp)
    (hanchor : anchorHref (env.findAnchor resp.text) = some href)
    (hdoc : env.getDoc = .error e) :
    (processRecord env true idx row).1.status = "URL_ONLY"
    ∧ specStatus (processRecord env true idx row).1 = "DOWNLOAD_FAILED"
    ∧ (processRecord env true idx row).1.carfaxUrl = some (pyStrip href)
    ∧ (processRecord env true idx row).1.errorMessage =
        some ("Carfax download error: " ++ e)
    ∧ (processRecord env true idx row).2.1 = none := by
  have hp : processRecord env true idx row =
      ({ vin := recordVin idx row.vin, ebrochureUrl := normalize_url row.source,
         carfaxUrl := some (pyStrip href), status := "URL_ONLY",
         errorMessage := some ("Carfax download error: " ++ e), fileName := none },
       none, (fetch_ebrochure env.get 3 (3 / 2)).attempts + 1) := by
    unfold processRecord
    simp [hvalid, hfetch, hanchor, hdoc]
  rw [hp]
  refine ⟨rfl, ?_, rfl, rfl, rfl⟩
  simp [specStatus]

/-- C4 witness: a concrete record that resolves but whose document fetch
raises keeps the stripped resolved URL and reports URL_ONLY. -/
theorem c4_download_failed_keeps_url_witness :
    (processRecord envDocFail true 0 rowV1).1.status = "URL_ONLY"
    ∧ specStatus (processRecord envDocFail true 0 rowV1).1 = "DOWNLOAD_FAILED"
    ∧ (processRecord envDocFail true 0 rowV1).1.carfaxUrl = some "http://cf" := by
  have h := c4_download_failed_keeps_url envDocFail 0 rowV1 respPage " http://cf " "boom"
    (by decide) rfl (by decide) rfl
  exact ⟨h.1, h.2.1, h.2.2.1⟩

/-- C7: a successfully downloaded document is archived under the record's
identifier sanitized — every character not alphanumeric, -, or _ replaced by
_ — plus the extension inferred from the lower-cased Content-Type header:
.pdf when it contains "pdf", otherwise .html, including when the header is
absent; concretely, identifier "ABC 123/xyz#1" gives stem "ABC_123_xyz_1". -/
theorem c7_archive_filename (env : RecEnv) (idx : Nat) (row : Row)
    (resp r2 : HttpResponse) (href : String)
    (hvalid : is_valid_url (normalize_url row.source) = true)
    (hfetch : (fetch_ebrochure env.get 3 (3 / 2)).result = .ok resp)
    (hanchor : anchorHref (env.findAnchor resp.text) = some href)
    (hdoc : env.getDoc = .ok r2) :
    (processRecord env true idx row).1.fileName =
      some (sanitizeId (recordVin idx row.vin) ++ extOf r2.contentType)
    ∧ (processRecord env true idx row).2.1 =
        some (recordVin idx row.vin,
          sanitizeId (recordVin idx row.vin) ++ extOf r2.contentType, r2.content)
    ∧ extOf (some "application/pdf") = ".pdf"
    ∧ extOf (some "text/html; charset=utf-8") = ".html"
    ∧ extOf none = ".html"
    ∧ sanitizeId "ABC 123/xyz#1" = "ABC_123_xyz_1" := by
  have hp : processRecord env true idx row =
      ({ vin := recordVin idx row.vin, ebrochureUrl := normalize_url row.source,
         carfaxUrl := some (pyStrip href), status := "OK_DOWNLOADED",
         errorMessage := none,
         fileName := some (sanitizeId (recordVin idx row.vin) ++ extOf r2.contentType) },
       some (recordVin idx row.vin,
         sanitizeId (recordVin idx row.vin) ++ extOf r2.contentType, r2.content),
       (fetch_ebrochure env.get 3 (3 / 2)).attempts + 1) := by
    unfold processRecord
    simp [hvalid, hfetch, hanchor, hdoc]
  rw [hp]
  exact ⟨rfl, rfl, by decide, by decide, by decide, by decide⟩

/-- C7 witness: a concrete record downloading a PDF is archived as
V1.pdf. -/
theorem c7_archive_filename_witness :
    (processRecord envOk true 0 rowV1).1.fileName = some "V1.pdf"
    ∧ (processRecord envOk true 0 rowV1).2.1 = some ("V1", "V1.pdf", [1, 2]) := by
  have h := c7_archive_filename envOk 0 rowV1 respPage respPdf " http://cf "
    (by decide) rfl (by decide) rfl
  exact ⟨h.1, h.2.1⟩

/-- A reported file name is always the sanitized identifier plus .pdf or
.html. -/
theorem processRecord_fileName (env : RecEnv) (flag : Bool) (idx : Nat) (row : Row)
    (fn : String) (h : (processRecord env flag idx row).1.fileName = some fn) :
    ∃ e : String, fn = sanitizeId (recordVin idx row.vin) ++ e
      ∧ (e = ".pdf" ∨ e = ".html") := by
  unfold processRecord at h
  dsimp only at h
  split at h
  · split at h
    · cases h
    · split at h
      · cases h
      · split at h
        · split at h
          · injection h with h1
            exact ⟨_, h1.symm, extOf_cases _⟩
          · cases h
        · cases h
  · cases h

/-- C10 counterexample: a single row with a NaN identifier resolves
successfully under the synthetic identifier row_0, yet its enriched-table
cell stays empty — the claim that the synthetic identifier is used as the
join key fails, because the merge keys the original row by astype(str) of
NaN, the string "nan". -/
theorem c10_counterexample :
    (runBatch (fun _ => envOk) false [rowNa]).results.map (fun rr => rr.vin) = ["row_0"]
    ∧ (runBatch (fun _ => envOk) false [rowNa]).results.map (fun rr => rr.carfaxUrl)
        = [some "http://cf"]
    ∧ (runBatch (fun _ => envOk) false [rowNa]).merged.map Prod.snd = [none] := by
  decide

/-- C10 (amended): a row with a missing identifier cell is not rejected: its
record is processed under the synthetic identifier row_<rowIndex>, which
appears in the result row and, sanitized, in any archive file name; but the
enriched-table join key of that original row is the string rendering "nan"
of the missing value — never the synthetic identifier — so its resolved-URL
cell is whatever a lookup of "nan" among first-seen results yields (empty
unless some record's identifier string is literally "nan"). -/
theorem c10_synthetic_id (envs : Nat → RecEnv) (flag : Bool) (table : List Row)
    (i : Nat) (row : Row) (hrow : table[i]? = some row) (hna : row.vin = Cell.na) :
    (∃ rr : RecordResult, (runBatch envs flag table).results[i]? = some rr
      ∧ rr.vin = "row_" ++ toString i
      ∧ ∀ fn, rr.fileName = some fn →
          ∃ e : String, fn = sanitizeId ("row_" ++ toString i) ++ e
            ∧ (e = ".pdf" ∨ e = ".html"))
    ∧ mergeKey row.vin = "nan"
    ∧ (runBatch envs flag table).merged[i]? =
        some (row, firstResultUrl (runBatch envs flag table).results "nan") := by
  have hidx : (runBatch envs flag table).results[i]? =
      (table[i]?).map (fun r => (processRecord (envs i) flag i r).1) := by
    rw [show (runBatch envs flag table).results = (runLoop envs flag 0 table []).1 from rfl,
      runLoop_results, mapIdxFrom_getElem]
    simp
  refine ⟨⟨(processRecord (envs i) flag i row).1, ?_, ?_, ?_⟩, ?_, ?_⟩
  · rw [hidx, hrow]
    rfl
  · rw [processRecord_vin, hna]
    rfl
  · intro fn hfn
    have h := processRecord_fileName (envs i) flag i row fn hfn
    rw [hna] at h
    exact h
  · rw [hna]
    rfl
  · have hm : (runBatch envs flag table).merged =
        mergedTable (runBatch envs flag table).results table := rfl
    rw [hm]
    unfold mergedTable
    rw [List.getElem?_map, hrow]
    simp only [Option.map_some']
    rw [carfaxCell_eq_firstResultUrl, hna]
    rfl

/-- C10 witness: the concrete NaN-identifier row — its result row is keyed
row_0 and its enriched cell is the lookup of "nan". -/
theorem c10_synthetic_id_witness :
    (∃ rr : RecordResult, (runBatch (fun _ => envOk) false [rowNa]).results[0]? = some rr
      ∧ rr.vin = "row_0")
    ∧ (runBatch (fun _ => envOk) false [rowNa]).merged[0]? =
        some (rowNa, firstResultUrl (runBatch (fun _ => envOk) false [rowNa]).results "nan") := by
  have h := c10_synthetic_id (fun _ => envOk) false [rowNa] 0 rowNa rfl rfl
  obtain ⟨⟨rr, hidx, hvin, _⟩, _, hmerge⟩ := h
  exact ⟨⟨rr, hidx, hvin⟩, hmerge⟩
